import Mathlib

/-!
FitBlog: the in-memory stores, the session gate and the request handlers.

A shallow embedding of `server.js`.  The two module-level arrays `users` and
`posts` and the session of the request being served are threaded through
every function as an explicit `State`.  Values that JavaScript leaves
dynamically typed (`req.session.userId`, `req.session.id`) are kept as
`JSValue`s so that `===` and truthiness behave as they do in the source.
The wall clock (`new Date().toLocaleString()`) is an argument `now`.

`req.body.username` reaches the handlers unvalidated, so a username is any
`JSValue` the body parsers can produce, arrays and plain objects included.
Titles and contents are only stored, never compared, and are kept as strings.

Ids are integer-valued JavaScript numbers, modelled as `Int`.  The source's
`++idNum` and `id + 1` are double-precision operations; integer addition is
what they compute exactly when the operand is a safe integer (`safeInteger`),
which is the range every statement about a computed id is restricted to or
stays inside.
-/

namespace FitBlog

/-! ## Data model -/

/-- The JavaScript values that occur in the session, in a parsed request body
and in comparisons.  An array or a plain object carries `ref`, the identity of
the object in memory: the body parsers build a new object for every request.
Arrays of strings and objects with string fields stand for all compound
values; deeper nesting changes nothing in how they are compared. -/
inductive JSValue where
  | undefined
  | null
  | boolean (b : Bool)
  | number (n : Int)
  | string (s : String)
  | array (ref : Nat) (items : List String)
  | object (ref : Nat) (fields : List (String × String))
  deriving DecidableEq, Repr

/-- JavaScript truthiness, as tested by `if (v)` and `!v`. -/
def JSValue.truthy : JSValue → Bool
  | .undefined => false
  | .null => false
  | .boolean b => b
  | .number n => n != 0
  | .string s => s != ""
  | .array _ _ => true
  | .object _ _ => true

/-- Strict equality `a === b`: primitives are equal when they have the same
type and value, arrays and objects only when they are the same object. -/
def JSValue.strictEq : JSValue → JSValue → Bool
  | .undefined, .undefined => true
  | .null, .null => true
  | .boolean a, .boolean b => a == b
  | .number a, .number b => a == b
  | .string a, .string b => a == b
  | .array r _, .array r' _ => r == r'
  | .object r _, .object r' _ => r == r'
  | _, _ => false

/-- Whether the value is an array or object, compared by identity. -/
def JSValue.isReference : JSValue → Bool
  | .array _ _ => true
  | .object _ _ => true
  | _ => false

/-- Whether two values carry the same content, whatever their identity: what
a reader of the users list sees as the same username. -/
def JSValue.sameContent : JSValue → JSValue → Bool
  | .array _ xs, .array _ ys => xs == ys
  | .object _ xs, .object _ ys => xs == ys
  | a, b => JSValue.strictEq a b

/-- `Number.MAX_SAFE_INTEGER`, 2^53 - 1. -/
def maxSafeInteger : Int := 9007199254740991

/-- `Number.isSafeInteger` on an integer: on this range the double-precision
increment of the source is exact. -/
def safeInteger (n : Int) : Bool := decide (-maxSafeInteger ≤ n) && decide (n ≤ maxSafeInteger)

/-- An entry of the `users` array. -/
structure User where
  id : Int
  username : JSValue
  avatar_url : Option String
  memberSince : String
  deriving DecidableEq, Repr

/-- An entry of the `posts` array. -/
structure Post where
  id : Int
  title : String
  content : String
  username : JSValue
  timestamp : String
  likes : Int
  deriving DecidableEq, Repr

/-- The two attributes the program stores in `req.session`. -/
structure Session where
  loggedIn : JSValue
  userId : JSValue
  deriving DecidableEq, Repr

/-- The module-level arrays together with the session of the current request. -/
structure State where
  users : List User
  posts : List Post
  session : Session
  deriving DecidableEq, Repr

/-- What a handler sends back through `res`. -/
inductive Response where
  | redirect (url : String)
  | renderPostDetail (post : Post) (style : String)
  deriving DecidableEq, Repr

/-- Outcome of a middleware: call `next()` or answer with a redirect. -/
inductive Guard where
  | next
  | redirect (url : String)
  deriving DecidableEq, Repr

/-- The example data `posts` starts with. -/
def initialPosts : List Post :=
  [ { id := 1, title := "Sample Post", content := "This is a sample post written by me .",
      username := .string "SampleUser", timestamp := "2024-01-01 10:00", likes := 0 },
    { id := 2, title := "Another Post", content := "This is another sample post.",
      username := .string "AnotherUser", timestamp := "2024-01-02 12:00", likes := 0 } ]

/-- The example data `users` starts with. -/
def initialUsers : List User :=
  [ { id := 1, username := .string "SampleUser", avatar_url := none,
      memberSince := "2024-01-01 08:00" },
    { id := 2, username := .string "AnotherUser", avatar_url := none,
      memberSince := "2024-01-02 09:00" } ]

/-- A session before anything has been stored in it. -/
def emptySession : Session := { loggedIn := .undefined, userId := .undefined }

/-- The state of the process right after start-up, seen by a fresh client. -/
def initialState : State :=
  { users := initialUsers, posts := initialPosts, session := emptySession }

/-! ## Support functions -/

/-- `findUserByUsername`: `users.find((user) => user.username === username)`. -/
def findUserByUsername (st : State) (username : JSValue) : Option User :=
  st.users.find? (fun user => JSValue.strictEq user.username username)

/-- `findUserById`: `users.find((user) => user.id === userId)`. -/
def findUserById (st : State) (userId : JSValue) : Option User :=
  st.users.find? (fun user => JSValue.strictEq (.number user.id) userId)

/-- `addUser`: reads the id of the last entry, increments it and pushes the new
user.  On an empty array `users[users.length - 1]` is `undefined` and reading
its `id` throws a `TypeError`, which is the result `none`.  `last.id + 1` is
the source's `++idNum` as long as `last.id` is a safe integer. -/
def addUser (st : State) (username : JSValue) (now : String) : Option State :=
  match st.users.getLast? with
  | none => none
  | some last =>
    some { st with users := st.users ++
      [{ id := last.id + 1, username := username, avatar_url := none, memberSince := now }] }

/-- `isAuthenticated`: `if (req.session.userId) next(); else res.redirect("/login")`. -/
def isAuthenticated (st : State) : Guard :=
  if st.session.userId.truthy then .next else .redirect "/login"

/-- `registerUser`: `username` is `req.body.username` as parsed.  Redirects when
`findUserByUsername` resolves it, otherwise calls `addUser` and sends no
response.  `none` is the exception `addUser` may throw. -/
def registerUser (st : State) (username : JSValue) (now : String) :
    Option (State × Option Response) :=
  match findUserByUsername st username with
  | some _ => some (st, some (.redirect "/register?error=Username%20already%20exists"))
  | none => (addUser st username now).map (fun st' => (st', none))

/-- `loginUser`: `username` is `req.body.username` as parsed.  Stores `loggedIn`
and `userId` in the session and redirects to `/` when the name resolves;
otherwise it only logs and sends no response. -/
def loginUser (st : State) (username : JSValue) : State × Option Response :=
  match findUserByUsername st username with
  | some existingUser =>
    ({ st with session :=
        { st.session with loggedIn := .boolean true, userId := .number existingUser.id } },
      some (.redirect "/"))
  | none => (st, none)

/-- `logoutUser`: `req.session.destroy`; `err` says whether the store reported
an error to the callback. -/
def logoutUser (st : State) (err : Bool) : State × Option Response :=
  if err then (st, some (.redirect "/error"))
  else ({ st with session := emptySession }, some (.redirect "/"))

/-- `getCurrentUser`: `users.find((user) => user.id === req.session.userId)`. -/
def getCurrentUser (st : State) : Option User :=
  st.users.find? (fun user => JSValue.strictEq (.number user.id) st.session.userId)

/-- `getPosts`: `posts.slice().reverse()`. -/
def getPosts (st : State) : List Post := st.posts.reverse

/-- `addPost`: the id is the last entry's id plus one, or 1 on an empty array.
`last.id + 1` is the source's double-precision sum as long as `last.id` is a
safe integer. -/
def addPost (st : State) (title postInfo : String) (user : User) (now : String) : State :=
  let idNum : Int :=
    match st.posts.getLast? with
    | some last => last.id + 1
    | none => 1
  { st with posts := st.posts ++
      [{ id := idNum, title := title, content := postInfo, username := user.username,
         timestamp := now, likes := 0 }] }

/-! ## Route handlers -/

/-- Handler of `POST /posts`. -/
def postPosts (st : State) (title postInfo now : String) : State × Option Response :=
  let userId := st.session.userId
  match userId.truthy, findUserById st userId with
  | true, some user => (addPost st title postInfo user now, some (.redirect "/"))
  | _, _ => (st, some (.redirect "/login"))

/-- Handler of `GET /post/:id`.  `paramsId` is `req.params.id`, the id in the
path; `sessionId` is `req.session.id`, the session identifier, which is what
the handler reads into `postId`. -/
def getPostDetail (st : State) (paramsId sessionId : String) : State × Option Response :=
  let _ := paramsId
  let postId := JSValue.string sessionId
  match st.posts.find? (fun post => JSValue.strictEq (.number post.id) postId) with
  | some post => (st, some (.renderPostDetail post "styles.css"))
  | none => (st, none)

/-! ## The specification's id rule -/

/-- The rule in the specification's words: max existing id + 1; 1 if the store
is empty. -/
def specNextId (ids : List Int) : Int :=
  match ids.max? with
  | some m => m + 1
  | none => 1

/-! ## Reachable states -/

/-- Users lists the process can hold: the initial one, and every list a
`registerUser` call leaves behind. -/
inductive UsersReachable : List User → Prop where
  | init : UsersReachable initialUsers
  | register (st st' : State) (username : JSValue) (now : String) (r : Option Response) :
      UsersReachable st.users → registerUser st username now = some (st', r) →
      UsersReachable st'.users

/-- States of the process as one client sees them: requests to register, log
in, log out, and posts created by this or any other client. -/
inductive Reachable : State → Prop where
  | init : Reachable initialState
  | register (st st' : State) (username : JSValue) (now : String) (r : Option Response) :
      Reachable st → registerUser st username now = some (st', r) → Reachable st'
  | login (st : State) (username : JSValue) :
      Reachable st → Reachable (loginUser st username).1
  | logout (st : State) (err : Bool) :
      Reachable st → Reachable (logoutUser st err).1
  | addPost (st : State) (title postInfo : String) (user : User) (now : String) :
      Reachable st → Reachable (addPost st title postInfo user now)

/-! ## Concrete states and invariants used by the theorems -/

/-- The initial state after `carol` has registered. -/
def carolState : State :=
  { initialState with users := initialUsers ++
      [{ id := 3, username := .string "carol", avatar_url := none,
         memberSince := "2024-01-03 10:00" }] }

/-- The initial state after one `POST /register` with the urlencoded body
`username[]=carol`, which the parser turns into a new array holding `carol`. -/
def arrayOnceState : State :=
  { initialState with users := initialUsers ++
      [{ id := 3, username := .array 1 ["carol"], avatar_url := none, memberSince := "t1" }] }

/-- The state after a second `POST /register` with the same body, parsed into
another new array. -/
def arrayTwiceState : State :=
  { initialState with users := initialUsers ++
      [{ id := 3, username := .array 1 ["carol"], avatar_url := none, memberSince := "t1" },
       { id := 4, username := .array 2 ["carol"], avatar_url := none, memberSince := "t2" }] }

/-- The initial state after one `POST /register` with a JSON body whose
`username` is the object with the single field `name` set to `carol`. -/
def objectOnceState : State :=
  { initialState with users := initialUsers ++
      [{ id := 3, username := .object 1 [("name", "carol")], avatar_url := none,
         memberSince := "t1" }] }

/-- The state after a second `POST /register` with the same JSON body, parsed
into another new object. -/
def objectTwiceState : State :=
  { initialState with users := initialUsers ++
      [{ id := 3, username := .object 1 [("name", "carol")], avatar_url := none,
         memberSince := "t1" },
       { id := 4, username := .object 2 [("name", "carol")], avatar_url := none,
         memberSince := "t2" }] }

/-- The initial state with the session of a client logged in as `SampleUser`. -/
def sampleSessionState : State :=
  { initialState with session := { loggedIn := .boolean true, userId := .number 1 } }

/-- A state whose stores hold their entries out of id order: ids 5 then 3. -/
def unsortedState : State :=
  { users := [ { id := 5, username := .string "eve", avatar_url := none, memberSince := "t5" },
               { id := 3, username := .string "dan", avatar_url := none, memberSince := "t3" } ],
    posts := [ { id := 5, title := "five", content := "e", username := .string "eve",
                 timestamp := "t5", likes := 0 },
               { id := 3, title := "three", content := "d", username := .string "dan",
                 timestamp := "t3", likes := 0 } ],
    session := emptySession }

/-- A state with empty stores. -/
def emptyState : State := { users := [], posts := [], session := emptySession }

/-- A state, not reachable, whose only user has id 0 and whose session holds
that id. -/
def zeroIdState : State :=
  { users := [{ id := 0, username := .string "zed", avatar_url := none, memberSince := "t0" }],
    posts := [],
    session := { loggedIn := .boolean true, userId := .number 0 } }

/-- Well-formedness of a users list: non-empty, ids positive and strictly
increasing in list order, and no username `===` a later one. -/
def UsersInv (us : List User) : Prop :=
  us ≠ [] ∧ (∀ u ∈ us, 1 ≤ u.id) ∧ List.Pairwise (fun a b : User => a.id < b.id) us ∧
    List.Pairwise (fun a b : User => JSValue.strictEq a.username b.username = false) us

/-- Well-formedness of a whole state: the users list is well-formed, post ids
are strictly increasing in list order, and a `userId` stored in the session is
the id of a user in the list. -/
def StateInv (st : State) : Prop :=
  UsersInv st.users ∧ List.Pairwise (fun a b : Post => a.id < b.id) st.posts ∧
    (st.session.userId = .undefined ∨ ∃ u ∈ st.users, st.session.userId = .number u.id)

/-- The id `addPost` gives to the post it creates. -/
def nextPostId (posts : List Post) : Int :=
  match posts.getLast? with
  | some last => last.id + 1
  | none => 1

/-! ## Facts about the stores -/

theorem strictEq_number_number (a b : Int) :
    JSValue.strictEq (.number a) (.number b) = decide (a = b) := rfl

theorem strictEq_self (v : JSValue) : JSValue.strictEq v v = true := by
  cases v <;> simp [JSValue.strictEq]

theorem eq_of_strictEq (a b : JSValue) (h : JSValue.strictEq a b = true)
    (hb : b.isReference = false) : a = b := by
  cases a <;> cases b <;> simp_all [JSValue.strictEq, JSValue.isReference]

theorem addUser_of_getLast (st : State) (last : User) (username : JSValue) (now : String)
    (h : st.users.getLast? = some last) :
    addUser st username now = some { st with users := st.users ++
      [{ id := last.id + 1, username := username, avatar_url := none, memberSince := now }] } := by
  simp [addUser, h]

theorem addUser_nil (st : State) (username : JSValue) (now : String) (h : st.users = []) :
    addUser st username now = none := by
  simp [addUser, h]

theorem getLast_of_ne_nil {α : Type} (l : List α) (h : l ≠ []) : ∃ a, l.getLast? = some a := by
  cases hl : l.getLast? with
  | none => exact absurd (List.getLast?_eq_none_iff.mp hl) h
  | some a => exact ⟨a, rfl⟩

theorem findUserByUsername_none_iff (st : State) (username : JSValue) :
    findUserByUsername st username = none ↔
      ∀ u ∈ st.users, JSValue.strictEq u.username username = false := by
  simp [findUserByUsername]

theorem findUserByUsername_some (st : State) (username : JSValue) (u : User)
    (h : findUserByUsername st username = some u) :
    u ∈ st.users ∧ JSValue.strictEq u.username username = true := by
  unfold findUserByUsername at h
  have hp := List.find?_some h
  exact ⟨List.mem_of_find?_eq_some h, by simpa using hp⟩

theorem usersInv_initial : UsersInv initialUsers := by
  refine ⟨by decide, by decide, ?_, ?_⟩
  · simp [initialUsers]
  · simp [initialUsers, JSValue.strictEq]

theorem usersInv_push (us : List User) (last : User) (username : JSValue) (now : String)
    (hinv : UsersInv us) (hlast : us.getLast? = some last)
    (hfresh : ∀ u ∈ us, JSValue.strictEq u.username username = false) :
    UsersInv (us ++
      [{ id := last.id + 1, username := username, avatar_url := none, memberSince := now }]) := by
  obtain ⟨_, hpos, hpw, hnd⟩ := hinv
  obtain ⟨ys, rfl⟩ := List.getLast?_eq_some_iff.mp hlast
  have hlt : ∀ y ∈ ys, y.id < last.id := by
    intro y hy
    exact (List.pairwise_append.mp hpw).2.2 y hy last (by simp)
  have hle : ∀ y ∈ ys ++ [last], y.id ≤ last.id := by
    intro y hy
    rcases List.mem_append.mp hy with h | h
    · exact le_of_lt (hlt y h)
    · simp at h; subst h; exact le_refl _
  refine ⟨by simp, ?_, ?_, ?_⟩
  · intro u hu
    rcases List.mem_append.mp hu with h | h
    · exact hpos u h
    · simp at h; subst h
      have := hpos last (by simp)
      show 1 ≤ last.id + 1
      omega
  · refine List.pairwise_append.mpr ⟨hpw, by simp, ?_⟩
    intro a ha b hb
    simp at hb; subst hb
    have := hle a ha
    show a.id < last.id + 1
    omega
  · refine List.pairwise_append.mpr ⟨hnd, by simp, ?_⟩
    intro a ha b hb
    simp at hb; subst hb
    exact hfresh a ha

theorem registerUser_usersInv (st st' : State) (username : JSValue) (now : String)
    (r : Option Response)
    (hinv : UsersInv st.users) (h : registerUser st username now = some (st', r)) :
    UsersInv st'.users := by
  unfold registerUser at h
  cases hf : findUserByUsername st username with
  | some u =>
    rw [hf] at h
    simp at h
    rw [← h.1]; exact hinv
  | none =>
    rw [hf] at h
    obtain ⟨last, hlast⟩ := getLast_of_ne_nil st.users hinv.1
    rw [addUser_of_getLast st last username now hlast] at h
    simp at h
    rw [← h.1]
    exact usersInv_push st.users last username now hinv hlast
      ((findUserByUsername_none_iff st username).mp hf)

theorem usersReachable_inv (us : List User) (h : UsersReachable us) : UsersInv us := by
  induction h with
  | init => exact usersInv_initial
  | register st st' username now r _ hstep ih =>
    exact registerUser_usersInv st st' username now r ih hstep

theorem find_by_id_of_pairwise (us : List User) (u : User)
    (hpw : List.Pairwise (fun a b : User => a.id < b.id) us) (hu : u ∈ us) :
    us.find? (fun user => JSValue.strictEq (.number user.id) (.number u.id)) = some u := by
  induction us with
  | nil => simp at hu
  | cons a l ih =>
    rw [List.pairwise_cons] at hpw
    rcases List.mem_cons.mp hu with h | h
    · subst h
      simp [List.find?_cons, strictEq_number_number]
    · have hlt : a.id < u.id := hpw.1 u h
      have hne : a.id ≠ u.id := ne_of_lt hlt
      simp only [List.find?_cons, strictEq_number_number, hne, decide_False]
      exact ih hpw.2 h

theorem find_by_id_undefined (us : List User) :
    us.find? (fun user => JSValue.strictEq (.number user.id) .undefined) = none := by
  simp [JSValue.strictEq]

theorem usersReachable_carol : UsersReachable carolState.users :=
  UsersReachable.register initialState carolState (.string "carol") "2024-01-03 10:00" none
    UsersReachable.init (by decide)

theorem usersReachable_arrayOnce : UsersReachable arrayOnceState.users :=
  UsersReachable.register initialState arrayOnceState (.array 1 ["carol"]) "t1" none
    UsersReachable.init (by decide)

theorem usersReachable_arrayTwice : UsersReachable arrayTwiceState.users :=
  UsersReachable.register arrayOnceState arrayTwiceState (.array 2 ["carol"]) "t2" none
    usersReachable_arrayOnce (by decide)

/-! ## Registration -/

/-- What does hold of every reachable users list: no two usernames are `===`.
For strings and other primitive values that is having different names; for
arrays and objects it only says they are different objects. -/
theorem usernames_strictly_distinct (us : List User) (h : UsersReachable us) :
    List.Pairwise (fun a b : User => JSValue.strictEq a.username b.username = false) us :=
  (usersReachable_inv us h).2.2.2

/-- Registering the same value twice: the first call appends one user, the
second finds it and redirects.  Two requests submit the same value when the
username is a string or another primitive. -/
theorem registerUser_twice_same_value (st : State) (username : JSValue) (t1 t2 : String)
    (hreach : UsersReachable st.users)
    (hfresh : ∀ u ∈ st.users, JSValue.strictEq u.username username = false) :
    ∃ u : User, u.username = username ∧
      registerUser st username t1 = some ({ st with users := st.users ++ [u] }, none) ∧
      registerUser { st with users := st.users ++ [u] } username t2 =
        some ({ st with users := st.users ++ [u] },
          some (.redirect "/register?error=Username%20already%20exists")) ∧
      (st.users ++ [u]).length = st.users.length + 1 := by
  have hinv := usersReachable_inv st.users hreach
  obtain ⟨last, hlast⟩ := getLast_of_ne_nil st.users hinv.1
  refine ⟨{ id := last.id + 1, username := username, avatar_url := none, memberSince := t1 },
    rfl, ?_, ?_, by simp⟩
  · have hf := (findUserByUsername_none_iff st username).mpr hfresh
    simp [registerUser, hf, addUser_of_getLast st last username t1 hlast]
  · have hsome : ∃ v, findUserByUsername { st with users := st.users ++
        [{ id := last.id + 1, username := username, avatar_url := none, memberSince := t1 }] }
        username = some v := by
      cases hv : findUserByUsername { st with users := st.users ++
        [{ id := last.id + 1, username := username, avatar_url := none, memberSince := t1 }] }
        username with
      | some v => exact ⟨v, rfl⟩
      | none =>
        have := (findUserByUsername_none_iff _ username).mp hv
          { id := last.id + 1, username := username, avatar_url := none, memberSince := t1 }
          (by simp)
        rw [show JSValue.strictEq username username = true from strictEq_self username] at this
        exact absurd this (by decide)
    obtain ⟨v, hv⟩ := hsome
    simp [registerUser, hv]

/-- C1, the code at the failing input: two `POST /register` requests with the
body `username[]=carol` are each parsed into a new array, `===` never matches
the stored one, and both are appended.  The users list reached holds two
entries with the same username content. -/
theorem registerUser_array_usernames_repeat :
    registerUser initialState (.array 1 ["carol"]) "t1" = some (arrayOnceState, none) ∧
      registerUser arrayOnceState (.array 2 ["carol"]) "t2" = some (arrayTwiceState, none) ∧
      UsersReachable arrayTwiceState.users ∧
      arrayTwiceState.users.map (fun u => u.username) =
        [.string "SampleUser", .string "AnotherUser", .array 1 ["carol"],
          .array 2 ["carol"]] ∧
      JSValue.sameContent (.array 1 ["carol"]) (.array 2 ["carol"]) = true ∧
      ¬ List.Pairwise (fun a b : User => JSValue.sameContent a.username b.username = false)
          arrayTwiceState.users :=
  ⟨by decide, by decide, usersReachable_arrayTwice, by decide, by decide, by decide⟩

/-- C2, the code at the failing input: the JSON body whose `username` is the
object with field `name` set to `carol` is not in the initial users list; the
first `registerUser` call appends it, and the second call with the same body,
parsed into a new object, appends it again and sends no redirect: the list has
grown by two. -/
theorem registerUser_object_second_call :
    findUserByUsername initialState (.object 1 [("name", "carol")]) = none ∧
      registerUser initialState (.object 1 [("name", "carol")]) "t1" =
        some (objectOnceState, none) ∧
      registerUser objectOnceState (.object 2 [("name", "carol")]) "t2" =
        some (objectTwiceState, none) ∧
      objectTwiceState.users.length = initialState.users.length + 2 ∧
      JSValue.sameContent (.object 1 [("name", "carol")]) (.object 2 [("name", "carol")]) =
        true := by
  decide

/-! ## Login -/

/-- C3: on a reachable users list, `loginUser` with a username that
`findUserByUsername` resolves to `u` stores `loggedIn = true` and
`userId = u.id` in the session, whatever the session held before, redirects to
`/`, and `getCurrentUser` then returns `u`, whose username is the submitted
one. -/
theorem loginUser_known (st : State) (username : JSValue) (u : User)
    (hreach : UsersReachable st.users) (hfind : findUserByUsername st username = some u) :
    loginUser st username =
        ({ st with session := { loggedIn := .boolean true, userId := .number u.id } },
          some (.redirect "/")) ∧
      getCurrentUser (loginUser st username).1 = some u ∧
      JSValue.strictEq u.username username = true ∧
      (username.isReference = false → u.username = username) := by
  have hinv := usersReachable_inv st.users hreach
  obtain ⟨hmem, hname⟩ := findUserByUsername_some st username u hfind
  have hlogin : loginUser st username =
      ({ st with session := { loggedIn := .boolean true, userId := .number u.id } },
        some (.redirect "/")) := by
    simp [loginUser, hfind]
  refine ⟨hlogin, ?_, hname, eq_of_strictEq u.username username hname⟩
  rw [hlogin]
  exact find_by_id_of_pairwise st.users u hinv.2.2.1 hmem

theorem loginUser_known_witness :
    loginUser sampleSessionState (.string "AnotherUser") =
        ({ sampleSessionState with session :=
            { loggedIn := .boolean true, userId := .number 2 } },
          some (.redirect "/")) ∧
      getCurrentUser (loginUser sampleSessionState (.string "AnotherUser")).1 =
        some { id := 2, username := .string "AnotherUser", avatar_url := none,
               memberSince := "2024-01-02 09:00" } ∧
      (⟨2, .string "AnotherUser", none, "2024-01-02 09:00"⟩ : User).username =
        .string "AnotherUser" :=
  have h := loginUser_known sampleSessionState (.string "AnotherUser")
    { id := 2, username := .string "AnotherUser", avatar_url := none,
      memberSince := "2024-01-02 09:00" }
    UsersReachable.init (by decide)
  ⟨h.1, h.2.1, h.2.2.2 rfl⟩

/-- C4: on every users list, reachable or not, `loginUser` with a username no
user has leaves the whole state, users list and session included, as it was
and sends no response; from a session without `userId`, `getCurrentUser` is
then absent and `isAuthenticated` redirects to `/login`. -/
theorem loginUser_unknown (st : State) (username : JSValue)
    (hnone : ∀ u ∈ st.users, JSValue.strictEq u.username username = false) :
    loginUser st username = (st, none) ∧
      (loginUser st username).1.users = st.users ∧
      (loginUser st username).1.session = st.session ∧
      (st.session.userId = .undefined →
        getCurrentUser (loginUser st username).1 = none ∧
        isAuthenticated (loginUser st username).1 = .redirect "/login") := by
  have hf := (findUserByUsername_none_iff st username).mpr hnone
  have hlogin : loginUser st username = (st, none) := by simp [loginUser, hf]
  refine ⟨hlogin, by rw [hlogin], by rw [hlogin], ?_⟩
  intro hanon
  rw [hlogin]
  refine ⟨?_, ?_⟩
  · show st.users.find? _ = none
    rw [hanon]
    exact find_by_id_undefined st.users
  · simp [isAuthenticated, hanon, JSValue.truthy]

theorem loginUser_unknown_witness :
    loginUser initialState (.string "mallory") = (initialState, none) ∧
      (loginUser initialState (.string "mallory")).1.users = initialState.users ∧
      (loginUser initialState (.string "mallory")).1.session = initialState.session ∧
      getCurrentUser (loginUser initialState (.string "mallory")).1 = none ∧
      isAuthenticated (loginUser initialState (.string "mallory")).1 = .redirect "/login" :=
  have h := loginUser_unknown initialState (.string "mallory") (by decide)
  ⟨h.1, h.2.1, h.2.2.1, (h.2.2.2 rfl).1, (h.2.2.2 rfl).2⟩

/-! ## Posts and the whole state -/

theorem pairwise_lt_push {α : Type} (f : α → Int) (l : List α) (x : α)
    (hpw : List.Pairwise (fun a b => f a < f b) l)
    (h : ∀ last, l.getLast? = some last → f last < f x) :
    List.Pairwise (fun a b => f a < f b) (l ++ [x]) ∧ ∀ y ∈ l, f y < f x := by
  have hall : ∀ y ∈ l, f y < f x := by
    cases hl : l.getLast? with
    | none =>
      have := List.getLast?_eq_none_iff.mp hl
      subst this
      simp
    | some last =>
      obtain ⟨ys, rfl⟩ := List.getLast?_eq_some_iff.mp hl
      have hx := h last hl
      intro y hy
      rcases List.mem_append.mp hy with hy' | hy'
      · have := (List.pairwise_append.mp hpw).2.2 y hy' last (by simp)
        omega
      · simp at hy'; subst hy'; exact hx
  refine ⟨List.pairwise_append.mpr ⟨hpw, by simp, ?_⟩, hall⟩
  intro a ha b hb
  simp at hb; subst hb
  exact hall a ha

theorem addPost_eq (st : State) (title postInfo : String) (user : User) (now : String) :
    addPost st title postInfo user now = { st with posts := st.posts ++
      [{ id := nextPostId st.posts, title := title, content := postInfo,
         username := user.username, timestamp := now, likes := 0 }] } := rfl

theorem addPost_pairwise (st : State) (title postInfo : String) (user : User) (now : String)
    (hpw : List.Pairwise (fun a b : Post => a.id < b.id) st.posts) :
    List.Pairwise (fun a b : Post => a.id < b.id) (addPost st title postInfo user now).posts ∧
      ∀ q ∈ st.posts, q.id < nextPostId st.posts := by
  rw [addPost_eq]
  have := pairwise_lt_push (fun p : Post => p.id) st.posts
    { id := nextPostId st.posts, title := title, content := postInfo,
      username := user.username, timestamp := now, likes := 0 } hpw
    (by
      intro last hlast
      show last.id < nextPostId st.posts
      simp [nextPostId, hlast])
  exact this

theorem stateInv_initial : StateInv initialState := by
  refine ⟨usersInv_initial, ?_, Or.inl rfl⟩
  simp [initialState, initialPosts]

theorem reachable_inv (st : State) (h : Reachable st) : StateInv st := by
  induction h with
  | init => exact stateInv_initial
  | register st st' username now r _ hstep ih =>
    obtain ⟨hu, hp, hs⟩ := ih
    refine ⟨registerUser_usersInv st st' username now r hu hstep, ?_, ?_⟩
    · unfold registerUser at hstep
      cases hf : findUserByUsername st username with
      | some u => rw [hf] at hstep; simp at hstep; rw [← hstep.1]; exact hp
      | none =>
        rw [hf] at hstep
        obtain ⟨last, hlast⟩ := getLast_of_ne_nil st.users hu.1
        rw [addUser_of_getLast st last username now hlast] at hstep
        simp at hstep; rw [← hstep.1]; exact hp
    · unfold registerUser at hstep
      cases hf : findUserByUsername st username with
      | some u => rw [hf] at hstep; simp at hstep; rw [← hstep.1]; exact hs
      | none =>
        rw [hf] at hstep
        obtain ⟨last, hlast⟩ := getLast_of_ne_nil st.users hu.1
        rw [addUser_of_getLast st last username now hlast] at hstep
        simp at hstep; rw [← hstep.1]
        rcases hs with hs | ⟨u, hmem, hs⟩
        · exact Or.inl hs
        · exact Or.inr ⟨u, List.mem_append.mpr (Or.inl hmem), hs⟩
  | login st username _ ih =>
    obtain ⟨hu, hp, hs⟩ := ih
    unfold loginUser
    cases hf : findUserByUsername st username with
    | some u =>
      exact ⟨hu, hp, Or.inr ⟨u, (findUserByUsername_some st username u hf).1, rfl⟩⟩
    | none => exact ⟨hu, hp, hs⟩
  | logout st err _ ih =>
    obtain ⟨hu, hp, hs⟩ := ih
    unfold logoutUser
    cases err with
    | true => exact ⟨hu, hp, hs⟩
    | false => exact ⟨hu, hp, Or.inl rfl⟩
  | addPost st title postInfo user now _ ih =>
    obtain ⟨hu, hp, hs⟩ := ih
    exact ⟨hu, (addPost_pairwise st title postInfo user now hp).1, hs⟩

theorem pairwise_ne_of_lt {α : Type} (f : α → Int) (l : List α)
    (h : List.Pairwise (fun a b => f a < f b) l) : List.Pairwise (fun a b => f a ≠ f b) l :=
  h.imp (fun hab => ne_of_lt hab)

/-- C7: in every reachable state the ids of the users list and the ids of the
posts list are strictly increasing in list order, hence pairwise distinct, and
the id a further `addUser` or `addPost` assigns is greater than every id
already in that store. -/
theorem ids_strictly_increasing (st : State) (h : Reachable st) :
    List.Pairwise (fun a b : User => a.id < b.id) st.users ∧
      List.Pairwise (fun a b : User => a.id ≠ b.id) st.users ∧
      List.Pairwise (fun a b : Post => a.id < b.id) st.posts ∧
      List.Pairwise (fun a b : Post => a.id ≠ b.id) st.posts ∧
      (∀ (username : JSValue) (now : String), ∃ u : User,
        addUser st username now = some { st with users := st.users ++ [u] } ∧
        ∀ v ∈ st.users, v.id < u.id) ∧
      (∀ (title postInfo : String) (user : User) (now : String), ∃ p : Post,
        addPost st title postInfo user now = { st with posts := st.posts ++ [p] } ∧
        ∀ q ∈ st.posts, q.id < p.id) := by
  obtain ⟨hu, hp, _⟩ := reachable_inv st h
  refine ⟨hu.2.2.1, pairwise_ne_of_lt (fun u : User => u.id) st.users hu.2.2.1, hp,
    pairwise_ne_of_lt (fun p : Post => p.id) st.posts hp, ?_, ?_⟩
  · intro username now
    obtain ⟨last, hlast⟩ := getLast_of_ne_nil st.users hu.1
    refine ⟨_, addUser_of_getLast st last username now hlast, ?_⟩
    exact (pairwise_lt_push (fun u : User => u.id) st.users
      { id := last.id + 1, username := username, avatar_url := none, memberSince := now }
      hu.2.2.1 (by
        intro l hl
        rw [hlast] at hl
        cases hl
        show last.id < last.id + 1
        omega)).2
  · intro title postInfo user now
    exact ⟨_, addPost_eq st title postInfo user now,
      (addPost_pairwise st title postInfo user now hp).2⟩

theorem ids_strictly_increasing_witness :
    List.Pairwise (fun a b : User => a.id < b.id) carolState.users ∧
      List.Pairwise (fun a b : User => a.id ≠ b.id) carolState.users ∧
      List.Pairwise (fun a b : Post => a.id < b.id) carolState.posts ∧
      List.Pairwise (fun a b : Post => a.id ≠ b.id) carolState.posts ∧
      (∀ (username : JSValue) (now : String), ∃ u : User,
        addUser carolState username now =
          some { carolState with users := carolState.users ++ [u] } ∧
        ∀ v ∈ carolState.users, v.id < u.id) ∧
      (∀ (title postInfo : String) (user : User) (now : String), ∃ p : Post,
        addPost carolState title postInfo user now =
          { carolState with posts := carolState.posts ++ [p] } ∧
        ∀ q ∈ carolState.posts, q.id < p.id) :=
  ids_strictly_increasing carolState
    (Reachable.register initialState carolState (.string "carol") "2024-01-03 10:00" none
      Reachable.init (by decide))

/-- C6: right after `addPost(title, content, author)`, `getPosts()` starts with
the post just created (given title and content, the author's username, no
likes) and continues with exactly what `getPosts()` returned before. -/
theorem getPosts_after_addPost (st : State) (title postInfo : String) (user : User)
    (now : String) :
    ∃ p : Post, getPosts (addPost st title postInfo user now) = p :: getPosts st ∧
      p.title = title ∧ p.content = postInfo ∧ p.username = user.username ∧ p.likes = 0 := by
  refine ⟨{ id := nextPostId st.posts, title := title, content := postInfo,
            username := user.username, timestamp := now, likes := 0 }, ?_, rfl, rfl, rfl, rfl⟩
  rw [addPost_eq]
  simp [getPosts]


theorem postPosts_reachable (st : State) (title postInfo now : String) (h : Reachable st) :
    Reachable (postPosts st title postInfo now).1 := by
  cases ht : st.session.userId.truthy with
  | false => simp only [postPosts, ht]; exact h
  | true =>
    cases hf : findUserById st st.session.userId with
    | none => simp only [postPosts, ht, hf]; exact h
    | some user =>
      simp only [postPosts, ht, hf]
      exact Reachable.addPost st title postInfo user now h

theorem truthy_of_reachable (st : State) (h : Reachable st)
    (hdef : st.session.userId ≠ .undefined) : st.session.userId.truthy = true := by
  obtain ⟨hu, _, hs⟩ := reachable_inv st h
  rcases hs with hs | ⟨u, hmem, hs⟩
  · exact absurd hs hdef
  · have hpos := hu.2.1 u hmem
    rw [hs]
    have hne : u.id ≠ 0 := by omega
    simp [JSValue.truthy, hne]

/-- C5: in every reachable state the `POST /posts` handler appends a post
exactly when the session's `userId` is present and `findUserById` resolves it:
then one post is appended after the unchanged earlier posts, with the resolved
user's username, the submitted title and content and no likes, and the answer
is a redirect to `/`; otherwise nothing changes and the answer is a redirect to
`/login`. -/
theorem postPosts_appends_iff (st : State) (title postInfo now : String) (h : Reachable st) :
    (∀ user : User, st.session.userId ≠ .undefined →
        findUserById st st.session.userId = some user →
        user ∈ st.users ∧
        ∃ p : Post, postPosts st title postInfo now =
            ({ st with posts := st.posts ++ [p] }, some (.redirect "/")) ∧
          p.username = user.username ∧ p.title = title ∧ p.content = postInfo ∧
          p.likes = 0) ∧
      ((st.session.userId = .undefined ∨ findUserById st st.session.userId = none) →
        postPosts st title postInfo now = (st, some (.redirect "/login"))) := by
  refine ⟨?_, ?_⟩
  · intro user hdef hfind
    have ht := truthy_of_reachable st h hdef
    refine ⟨List.mem_of_find?_eq_some hfind,
      { id := nextPostId st.posts, title := title, content := postInfo,
        username := user.username, timestamp := now, likes := 0 }, ?_, rfl, rfl, rfl, rfl⟩
    simp only [postPosts, ht, hfind]
    rw [addPost_eq]
  · intro hno
    rcases hno with hundef | hnone
    · have ht : st.session.userId.truthy = false := by rw [hundef]; rfl
      simp only [postPosts, ht]
    · simp only [postPosts, hnone]
      cases st.session.userId.truthy <;> rfl

theorem postPosts_appends_iff_witness :
    Reachable sampleSessionState ∧
      ∃ p : Post, postPosts sampleSessionState "Hi" "hello" "2024-01-03 11:00" =
          ({ sampleSessionState with posts := sampleSessionState.posts ++ [p] },
            some (.redirect "/")) ∧
        p.username = .string "SampleUser" ∧ p.title = "Hi" ∧ p.content = "hello" ∧
        p.likes = 0 :=
  ⟨Reachable.login initialState (.string "SampleUser") Reachable.init,
    ((postPosts_appends_iff sampleSessionState "Hi" "hello" "2024-01-03 11:00"
      (Reachable.login initialState (.string "SampleUser") Reachable.init)).1
      { id := 1, username := .string "SampleUser", avatar_url := none,
        memberSince := "2024-01-01 08:00" }
      (by decide) (by decide)).2⟩

/-- Outside the reachable states the guard of `POST /posts` is stricter than
presence of `userId`: it tests truthiness, so a session holding the id 0 of an
existing user is sent to `/login`.  No reachable state has a user with id 0. -/
theorem postPosts_zero_id :
    findUserById zeroIdState zeroIdState.session.userId =
        some { id := 0, username := .string "zed", avatar_url := none, memberSince := "t0" } ∧
      postPosts zeroIdState "a" "b" "t" = (zeroIdState, some (.redirect "/login")) ∧
      ¬ Reachable zeroIdState := by
  refine ⟨by decide, by decide, ?_⟩
  intro h
  have := (reachable_inv zeroIdState h).1.2.1
    { id := 0, username := .string "zed", avatar_url := none, memberSince := "t0" }
    (by decide)
  exact absurd this (by decide)

/-! ## Id assignment against the specification's rule -/

theorem int_max?_eq_some (l : List Int) (m : Int) (hm : m ∈ l) (hle : ∀ b ∈ l, b ≤ m) :
    l.max? = some m := by
  have key : ∀ (xs : List Int) (a : Int), a ≤ m → (∀ b ∈ xs, b ≤ m) →
      (a = m ∨ m ∈ xs) → xs.foldl max a = m := by
    intro xs
    induction xs with
    | nil =>
      intro a _ _ h
      rcases h with h | h
      · simpa using h
      · simp at h
    | cons x xs ih =>
      intro a ha hxs h
      simp only [List.foldl_cons]
      have hx : x ≤ m := hxs x (by simp)
      apply ih (max a x) (max_le ha hx) (fun b hb => hxs b (by simp [hb]))
      rcases h with h | h
      · left; subst h; exact max_eq_left hx
      · rcases List.mem_cons.mp h with h | h
        · left; subst h; exact max_eq_right ha
        · right; exact h
  cases l with
  | nil => simp at hm
  | cons a xs =>
    simp only [List.max?]
    congr 1
    apply key xs a (hle a (by simp)) (fun b hb => hle b (by simp [hb]))
    rcases List.mem_cons.mp hm with h | h
    · left; exact h.symm
    · right; exact h

theorem specNextId_of_sorted {α : Type} (f : α → Int) (l : List α) (last : α)
    (hpw : List.Pairwise (fun a b => f a ≤ f b) l) (hlast : l.getLast? = some last) :
    specNextId (l.map f) = f last + 1 := by
  obtain ⟨ys, rfl⟩ := List.getLast?_eq_some_iff.mp hlast
  have hmax : ((ys ++ [last]).map f).max? = some (f last) := by
    apply int_max?_eq_some
    · exact List.mem_map.mpr ⟨last, by simp, rfl⟩
    · intro b hb
      obtain ⟨y, hy, rfl⟩ := List.mem_map.mp hb
      rcases List.mem_append.mp hy with hy' | hy'
      · exact (List.pairwise_append.mp hpw).2.2 y hy' last (by simp)
      · simp at hy'; subst hy'; exact le_refl _
  unfold specNextId
  rw [hmax]

/-- C8, the claim refuted: on the empty users list `addUser` throws instead of
assigning id 1, and on the list with ids 5, 3 it assigns id 4 where the maximum
id plus 1 is 6. -/
theorem addUser_not_specNextId :
    addUser emptyState (.string "frank") "t6" = none ∧
      specNextId (emptyState.users.map (fun u => u.id)) = 1 ∧
      addUser unsortedState (.string "frank") "t6" = some { unsortedState with users :=
        unsortedState.users ++
          [{ id := 4, username := .string "frank", avatar_url := none,
             memberSince := "t6" }] } ∧
      specNextId (unsortedState.users.map (fun u => u.id)) = 6 := by
  decide

/-- C8, amended: on every non-empty users list whose ids are safe integers
`addUser` succeeds and appends a user whose id is the id of the last entry plus
1; when the ids are in non-decreasing list order that is the maximum id plus
1. -/
theorem addUser_last_id_plus_one (st : State) (username : JSValue) (now : String)
    (hne : st.users ≠ []) (hsafe : ∀ u ∈ st.users, safeInteger u.id = true) :
    ∃ last : User, st.users.getLast? = some last ∧ safeInteger last.id = true ∧
      addUser st username now = some { st with users := st.users ++
        [{ id := last.id + 1, username := username, avatar_url := none,
           memberSince := now }] } ∧
      (List.Pairwise (fun a b : User => a.id ≤ b.id) st.users →
        last.id + 1 = specNextId (st.users.map (fun u => u.id))) := by
  obtain ⟨last, hlast⟩ := getLast_of_ne_nil st.users hne
  refine ⟨last, hlast, hsafe last (List.mem_of_getLast?_eq_some hlast),
    addUser_of_getLast st last username now hlast, ?_⟩
  intro hpw
  exact (specNextId_of_sorted (fun u : User => u.id) st.users last hpw hlast).symm

theorem addUser_last_id_plus_one_witness :
    ∃ last : User, initialState.users.getLast? = some last ∧ safeInteger last.id = true ∧
      addUser initialState (.string "carol") "2024-01-03 10:00" =
        some { initialState with users := initialState.users ++
          [{ id := last.id + 1, username := .string "carol", avatar_url := none,
             memberSince := "2024-01-03 10:00" }] } ∧
      last.id + 1 = specNextId (initialState.users.map (fun u => u.id)) :=
  let ⟨last, h1, h2, h3, h4⟩ :=
    addUser_last_id_plus_one initialState (.string "carol") "2024-01-03 10:00"
      (by decide) (by decide)
  ⟨last, h1, h2, h3, h4 (by decide)⟩

/-- C9, the claim refuted: on the posts list with ids 5, 3 `addPost` assigns id
4 where the maximum id plus 1 is 6. -/
theorem addPost_not_specNextId :
    addPost unsortedState "new" "text" ⟨5, .string "eve", none, "t5"⟩ "t6" =
        { unsortedState with posts := unsortedState.posts ++
          [{ id := 4, title := "new", content := "text", username := .string "eve",
             timestamp := "t6", likes := 0 }] } ∧
      specNextId (unsortedState.posts.map (fun p => p.id)) = 6 := by
  decide

/-- C9, amended: on every posts list whose ids are safe integers `addPost`
appends a post whose id is the id of the last entry plus 1, or 1 if the list is
empty; when the ids are in non-decreasing list order that is the maximum id
plus 1, or 1 if the list is empty. -/
theorem addPost_last_id_plus_one (st : State) (title postInfo : String) (user : User)
    (now : String) (hsafe : ∀ q ∈ st.posts, safeInteger q.id = true) :
    ∃ p : Post, addPost st title postInfo user now = { st with posts := st.posts ++ [p] } ∧
      (st.posts = [] → p.id = 1) ∧
      (∀ last : Post, st.posts.getLast? = some last →
        safeInteger last.id = true ∧ p.id = last.id + 1) ∧
      (List.Pairwise (fun a b : Post => a.id ≤ b.id) st.posts →
        p.id = specNextId (st.posts.map (fun q => q.id))) := by
  refine ⟨_, addPost_eq st title postInfo user now, ?_, ?_, ?_⟩
  · intro h
    show nextPostId st.posts = 1
    simp [nextPostId, h]
  · intro last hlast
    refine ⟨hsafe last (List.mem_of_getLast?_eq_some hlast), ?_⟩
    show nextPostId st.posts = last.id + 1
    simp [nextPostId, hlast]
  · intro hpw
    show nextPostId st.posts = _
    cases hl : st.posts.getLast? with
    | none =>
      have := List.getLast?_eq_none_iff.mp hl
      simp [nextPostId, this, specNextId]
    | some last =>
      rw [specNextId_of_sorted (fun q : Post => q.id) st.posts last hpw hl]
      simp [nextPostId, hl]

theorem addPost_last_id_plus_one_witness :
    ∃ p : Post, addPost initialState "Hi" "hello" ⟨1, .string "SampleUser", none, "t"⟩ "t3" =
        { initialState with posts := initialState.posts ++ [p] } ∧
      p.id = 2 + 1 ∧ p.id = specNextId (initialState.posts.map (fun q => q.id)) :=
  let ⟨p, h1, _, h3, h4⟩ :=
    addPost_last_id_plus_one initialState "Hi" "hello" ⟨1, .string "SampleUser", none, "t"⟩
      "t3" (by decide)
  ⟨p, h1,
    (h3 { id := 2, title := "Another Post", content := "This is another sample post.",
          username := .string "AnotherUser", timestamp := "2024-01-02 12:00", likes := 0 }
      (by decide)).2,
    h4 (by decide)⟩

/-! ## Post detail -/

theorem getPostDetail_never_renders (st : State) (paramsId sessionId : String) :
    getPostDetail st paramsId sessionId = (st, none) := by
  have hnone : st.posts.find?
      (fun post => JSValue.strictEq (.number post.id) (JSValue.string sessionId)) = none := by
    simp [JSValue.strictEq]
  simp [getPostDetail, hnone]

/-- C10, the code at the failing input: the initial posts list holds the post
with id 1, yet `GET /post/1` renders nothing and sends no response, whatever
the session identifier is. -/
theorem getPostDetail_post_one (sessionId : String) :
    initialState.posts.find? (fun post => decide (post.id = 1)) =
        some { id := 1, title := "Sample Post",
               content := "This is a sample post written by me .",
               username := .string "SampleUser", timestamp := "2024-01-01 10:00",
               likes := 0 } ∧
      getPostDetail initialState "1" sessionId = (initialState, none) :=
  ⟨by decide, getPostDetail_never_renders initialState "1" sessionId⟩

end FitBlog
